import Mathlib

/-!
# Verification of the OPTIMET-BCN `StateManager` (src/utils/state_manager.py)

Shallow embedding of the TabState Store: a per-session store mapping a tab
namespace (string) to a mapping from string keys to Python values.

Modelling conventions:
* Python dictionaries are modelled as association lists with the usual dict
  semantics (lookup finds the binding, assignment overwrites in place or
  appends).  Real Python dicts never hold duplicate keys; lemmas that need
  this are stated with a `nodupKeys` hypothesis.
* Python values are modelled by the inductive type `Value`: strings,
  integers (numbers are modelled as integers), booleans, lists,
  string-keyed dicts, and `Value.other`, an opaque value of any other
  Python type (not JSON-serializable); the payload of `other`
  distinguishes different such objects.
* A method that can raise (`KeyError` from `tabs_state[self.tab_name]`,
  `TypeError` from `json.dump`) is embedded as an `Option`-valued function,
  `none` meaning the exception.
-/

set_option autoImplicit false

namespace OptimetBCN

/-- A Python value as stored in `st.session_state["tabs_state"]`.
Numbers are modelled as integers; `other` stands for a value of any type
outside `(str, int, float, bool, list, dict)`, e.g. a dataframe. -/
inductive Value where
  | str : String → Value
  | int : Int → Value
  | bool : Bool → Value
  | list : List Value → Value
  | dict : List (String × Value) → Value
  | other : Nat → Value

/-! ## Association lists with Python-dict semantics -/

/-- `d.get(k)` / `k in d`: the value bound to `k`, if any. -/
def alookup {κ α : Type} [DecidableEq κ] : List (κ × α) → κ → Option α
  | [], _ => none
  | (k', v) :: rest, k => if k' = k then some v else alookup rest k

/-- `d[k] = v`: overwrite the binding of `k` in place, or append it. -/
def aset {κ α : Type} [DecidableEq κ] : List (κ × α) → κ → α → List (κ × α)
  | [], k, v => [(k, v)]
  | (k', v') :: rest, k, v =>
    if k' = k then (k, v) :: rest else (k', v') :: aset rest k v

/-- `d.pop(k, None)`: remove the binding of `k` (no error if absent). -/
def apop {κ α : Type} [DecidableEq κ] : List (κ × α) → κ → List (κ × α)
  | [], _ => []
  | (k', v') :: rest, k =>
    if k' = k then apop rest k else (k', v') :: apop rest k

/-- `d.update(src)`: set every binding of `src` in `d`, in order. -/
def aupdate {κ α : Type} [DecidableEq κ] (d src : List (κ × α)) : List (κ × α) :=
  src.foldl (fun acc p => aset acc p.1 p.2) d

/-- `k` is bound by no entry of `d`. -/
def keyFree {κ α : Type} [DecidableEq κ] : List (κ × α) → κ → Bool
  | [], _ => true
  | (k', _) :: rest, k => if k' = k then false else keyFree rest k

/-- The keys of `d` are pairwise distinct (true of every real Python dict). -/
def nodupKeys {κ α : Type} [DecidableEq κ] : List (κ × α) → Bool
  | [] => true
  | (k, _) :: rest => keyFree rest k && nodupKeys rest

/-! ## The TabState Store (value level) -/

/-- One namespace's entries: `st.session_state["tabs_state"][tab]`. -/
abbrev TabState : Type := List (String × Value)

/-- The session store: `st.session_state["tabs_state"]`. -/
abbrev Store : Type := List (String × TabState)

namespace StateManager

/-- `StateManager.__init__` (the part acting on `tabs_state`): ensure the
tab's sub-dict exists, creating it empty if absent. -/
def construct (s : Store) (tab : String) : Store :=
  match alookup s tab with
  | some _ => s
  | none => aset s tab ([] : TabState)

/-- Run `f` on the dict `tabs_state[tab]`; `none` is the `KeyError` raised
when the namespace is absent. -/
def modifyTab (s : Store) (tab : String) (f : TabState → TabState) : Option Store :=
  match alookup s tab with
  | some t => some (aset s tab (f t))
  | none => none

/-- `StateManager.init(defaults)` acting on the tab's dict: each default key
is set only if not already present (checked against the mutated dict). -/
def initTab (t : TabState) (defaults : List (String × Value)) : TabState :=
  defaults.foldl
    (fun acc p => match alookup acc p.1 with
      | some _ => acc
      | none => aset acc p.1 p.2) t

/-- `StateManager.init(defaults)`. -/
def init (s : Store) (tab : String) (defaults : List (String × Value)) : Option Store :=
  modifyTab s tab (fun t => initTab t defaults)

/-- `StateManager.get(key, default)`: `tabs_state[self.tab_name].get(key, default)`.
`none` is the `KeyError` when the bound namespace is absent from the store. -/
def get (s : Store) (tab k : String) (d : Value) : Option Value :=
  (alookup s tab).map (fun t => (alookup t k).getD d)

/-- `StateManager.set(key, value)`. -/
def set (s : Store) (tab k : String) (v : Value) : Option Store :=
  modifyTab s tab (fun t => aset t k v)

/-- `StateManager.reset(keys)`.  Mirrors `if keys:`: the pop-loop runs only
for a `Some` *non-empty* list; `None` and the empty list both take the
`tabs_state[self.tab_name] = \x7b\x7d` branch, which needs no existing entry. -/
def reset (s : Store) (tab : String) (keys : Option (List String)) : Option Store :=
  match keys with
  | some ks =>
    if ks.isEmpty then some (aset s tab ([] : TabState))
    else modifyTab s tab (fun t => ks.foldl apop t)
  | none => some (aset s tab ([] : TabState))

/-- `StateManager.get_all()`: `dict(tabs_state[self.tab_name])` (value level:
the contents of the copy; aliasing is treated in the heap model below). -/
def get_all (s : Store) (tab : String) : Option TabState :=
  alookup s tab

/-- `StateManager.get_from_tab(tab_name, key, default)`:
`tabs_state.get(tab_name, \x7b\x7d).get(key, default)`. -/
def get_from_tab (s : Store) (tab k : String) (d : Value) : Value :=
  (alookup ((alookup s tab).getD ([] : TabState)) k).getD d

/-- State-passing form of `get_from_tab`: the method body contains no write
to `session_state`, so the store component is returned unchanged. -/
def get_from_tabS (s : Store) (tab k : String) (d : Value) : Value × Store :=
  (get_from_tab s tab k d, s)

/-- One iteration of the keyed loop in `copy_from_tab`:
`if k in source_state: tabs_state[self.tab_name][k] = source_state[k]`.
The accumulator is `none` once a `KeyError` has been raised. -/
def copyStep (sourceState : TabState) (dest : String) (acc : Option Store)
    (k : String) : Option Store :=
  match alookup sourceState k with
  | some v =>
    match acc with
    | some st =>
      match alookup st dest with
      | some t => some (aset st dest (aset t k v))
      | none => none
    | none => none
  | none => acc

/-- `StateManager.copy_from_tab(source_tab, keys)`.  `source_state` is read
once up front (defaulting to `\x7b\x7d`); `if keys:` sends `None` and the
empty list to the `update` branch.  In the keyed branch each present key is
assigned into `tabs_state[self.tab_name]` (`none` = the `KeyError` when the
destination namespace is absent and an assignment actually happens). -/
def copy_from_tab (s : Store) (dest src : String) (keys : Option (List String)) :
    Option Store :=
  let sourceState := (alookup s src).getD ([] : TabState)
  let copyAll : Option Store :=
    match alookup s dest with
    | some t => some (aset s dest (aupdate t sourceState))
    | none => none
  match keys with
  | some ks =>
    if ks.isEmpty then copyAll
    else ks.foldl (copyStep sourceState dest) (some s)
  | none => copyAll

/-! ## Persistence -/

/-- The `isinstance(v, (str, int, float, bool, list, dict))` filter used by
`save_all`: a *top-level* type test only. -/
def isSaveType : Value → Bool
  | Value.other _ => false
  | _ => true

mutual

/-- `v` is actually JSON-serializable: no `other` value occurs anywhere
inside it (`json.dump` raises `TypeError` otherwise). -/
def deepRep : Value → Bool
  | Value.str _ => true
  | Value.int _ => true
  | Value.bool _ => true
  | Value.other _ => false
  | Value.list vs => deepRepList vs
  | Value.dict kvs => deepRepDict kvs

/-- Every element of the list is JSON-serializable. -/
def deepRepList : List Value → Bool
  | [] => true
  | v :: vs => deepRep v && deepRepList vs

/-- Every value of the dict is JSON-serializable. -/
def deepRepDict : List (String × Value) → Bool
  | [] => true
  | (_, v) :: kvs => deepRep v && deepRepDict kvs

end

/-- The dictionary comprehension in `save_all`: keep the entries whose value
passes the top-level `isinstance` test. -/
def filterTab : TabState → TabState
  | [] => []
  | (k, v) :: rest =>
    if isSaveType v then (k, v) :: filterTab rest else filterTab rest

/-- The `data` dict built by `save_all`: every tab is kept (possibly with an
empty dict), each filtered by the top-level type test. -/
def snapshotData : Store → Store
  | [] => []
  | (tab, t) :: rest => (tab, filterTab t) :: snapshotData rest

/-- `json.dump(data, f)` succeeds iff every remaining value is
JSON-serializable all the way down. -/
def dumpOk : Store → Bool
  | [] => true
  | (_, t) :: rest => deepRepDict t && dumpOk rest

/-- `StateManager.save_all(filename)`: filter each tab's entries by the
top-level type test, then `json.dump`.  `some d` is the written snapshot;
`none` is the `TypeError` raised by `json.dump` (no valid snapshot file
results).  JSON round-tripping is the identity on serializable data in this
model (numbers are integers, dict keys strings). -/
def save_all (s : Store) : Option Store :=
  let d := snapshotData s
  if dumpOk d then some d else none

/-- `StateManager.load_all(filename)`: `file` is the parsed snapshot when
the file exists (`none`: the file is absent and the current store is kept);
when present its content replaces `tabs_state` wholesale. -/
def load_all (file : Option Store) (cur : Store) : Store :=
  match file with
  | some d => d
  | none => cur

/-- `save_all` in one session followed by `load_all` in a fresh session
(whose store starts empty).  A `save_all` that raises writes no valid
snapshot, so the fresh session keeps its empty store. -/
def roundTrip (s : Store) : Store :=
  load_all (save_all s) ([] : Store)

end StateManager

/-! ## Lemmas about the dict primitives -/

section AListLemmas

variable {κ α : Type} [DecidableEq κ]

theorem alookup_aset_self (m : List (κ × α)) (k : κ) (v : α) :
    alookup (aset m k v) k = some v := by
  induction m with
  | nil => simp [aset, alookup]
  | cons p rest ih =>
    obtain ⟨k', v'⟩ := p
    by_cases h : k' = k
    · simp [aset, h, alookup]
    · simp [aset, h, alookup, ih]

theorem alookup_aset_other (m : List (κ × α)) (k k' : κ) (v : α) (h : k' ≠ k) :
    alookup (aset m k v) k' = alookup m k' := by
  induction m with
  | nil => simp [aset, alookup, Ne.symm h]
  | cons p rest ih =>
    obtain ⟨k0, v0⟩ := p
    by_cases h0 : k0 = k
    · subst h0
      simp [aset, alookup, Ne.symm h]
    · simp [aset, h0, alookup, ih]

theorem aset_self (m : List (κ × α)) (k : κ) (v : α) (h : alookup m k = some v) :
    aset m k v = m := by
  induction m with
  | nil => simp [alookup] at h
  | cons p rest ih =>
    obtain ⟨k0, v0⟩ := p
    by_cases h0 : k0 = k
    · subst h0
      simp [alookup] at h
      simp [aset, h]
    · simp [alookup, h0] at h
      simp [aset, h0, ih h]

theorem aset_aset_self (m : List (κ × α)) (k : κ) (v w : α) :
    aset (aset m k v) k w = aset m k w := by
  induction m with
  | nil => simp [aset]
  | cons p rest ih =>
    obtain ⟨k0, v0⟩ := p
    by_cases h0 : k0 = k
    · simp [aset, h0]
    · simp [aset, h0, ih]

theorem alookup_apop (m : List (κ × α)) (k k' : κ) :
    alookup (apop m k) k' = if k' = k then none else alookup m k' := by
  induction m with
  | nil => simp [apop, alookup]
  | cons p rest ih =>
    obtain ⟨k0, v0⟩ := p
    by_cases h0 : k0 = k
    · subst h0
      rw [apop, if_pos rfl, ih]
      by_cases h1 : k' = k0
      · rw [if_pos h1, if_pos h1]
      · rw [if_neg h1, if_neg h1, alookup, if_neg (Ne.symm h1)]
    · rw [apop, if_neg h0]
      by_cases h1 : k' = k
      · subst h1
        rw [if_pos rfl, alookup, if_neg h0, ih, if_pos rfl]
      · rw [if_neg h1]
        by_cases h2 : k0 = k'
        · subst h2
          rw [alookup, if_pos rfl, alookup, if_pos rfl]
        · rw [alookup, if_neg h2, alookup, if_neg h2, ih, if_neg h1]

theorem alookup_mem (m : List (κ × α)) (k : κ) (v : α) (h : alookup m k = some v) :
    (k, v) ∈ m := by
  induction m with
  | nil => simp [alookup] at h
  | cons p rest ih =>
    obtain ⟨k0, v0⟩ := p
    by_cases h0 : k0 = k
    · subst h0
      simp [alookup] at h
      simp [h]
    · simp [alookup, h0] at h
      exact List.mem_cons_of_mem _ (ih h)

theorem keyFree_alookup (m : List (κ × α)) (k : κ) (h : keyFree m k = true) :
    alookup m k = none := by
  induction m with
  | nil => simp [alookup]
  | cons p rest ih =>
    obtain ⟨k0, v0⟩ := p
    by_cases h0 : k0 = k
    · simp [keyFree, h0] at h
    · simp [keyFree, h0] at h
      simp [alookup, h0, ih h]

theorem alookup_foldl_apop (ks : List κ) (t : List (κ × α)) (k : κ) :
    alookup (ks.foldl apop t) k = if k ∈ ks then none else alookup t k := by
  induction ks generalizing t with
  | nil => simp
  | cons k0 rest ih =>
    rw [List.foldl_cons, ih]
    by_cases h1 : k ∈ rest
    · simp [h1]
    · by_cases h2 : k = k0
      · simp [h1, h2, alookup_apop]
      · simp [h1, h2, alookup_apop]

theorem alookup_aupdate (d src : List (κ × α)) (k : κ)
    (hnd : nodupKeys src = true) :
    alookup (aupdate d src) k = (alookup src k).or (alookup d k) := by
  induction src generalizing d with
  | nil => simp [aupdate, alookup, Option.or]
  | cons p rest ih =>
    obtain ⟨k0, v0⟩ := p
    simp only [nodupKeys, Bool.and_eq_true] at hnd
    have step : aupdate d ((k0, v0) :: rest) = aupdate (aset d k0 v0) rest := by
      simp [aupdate]
    rw [step, ih _ hnd.2]
    by_cases h0 : k0 = k
    · subst h0
      have : alookup rest k0 = none := keyFree_alookup rest k0 hnd.1
      simp [this, alookup, alookup_aset_self, Option.or]
    · have hne : k ≠ k0 := fun hh => h0 hh.symm
      simp [alookup, h0, alookup_aset_other d k0 k v0 hne]

end AListLemmas

/-! ## Lemmas about the StateManager operations -/

namespace StateManager

theorem deepRep_isSaveType (v : Value) (h : deepRep v = true) : isSaveType v = true := by
  cases v with
  | other n => rw [deepRep] at h; exact absurd h (by simp)
  | str s => rfl
  | int n => rfl
  | bool b => rfl
  | list vs => rfl
  | dict kvs => rfl

theorem alookup_filterTab (t : TabState) (k : String) (v : Value)
    (h : alookup t k = some v) (hv : isSaveType v = true) :
    alookup (filterTab t) k = some v := by
  induction t with
  | nil => simp [alookup] at h
  | cons p rest ih =>
    obtain ⟨k0, v0⟩ := p
    by_cases h0 : k0 = k
    · subst h0
      rw [alookup, if_pos rfl] at h
      injection h with hv0
      subst hv0
      rw [filterTab, if_pos hv, alookup, if_pos rfl]
    · rw [alookup, if_neg h0] at h
      by_cases hs : isSaveType v0 = true
      · rw [filterTab, if_pos hs, alookup, if_neg h0]
        exact ih h
      · rw [filterTab, if_neg hs]
        exact ih h

theorem alookup_snapshotData (s : Store) (tab : String) :
    alookup (snapshotData s) tab = (alookup s tab).map filterTab := by
  induction s with
  | nil => simp [snapshotData, alookup]
  | cons p rest ih =>
    obtain ⟨t0, st0⟩ := p
    by_cases h0 : t0 = tab
    · simp [snapshotData, alookup, h0]
    · simp [snapshotData, alookup, h0, ih]

theorem alookup_initTab (t : TabState) (ds : List (String × Value)) (k : String) :
    alookup (initTab t ds) k = (alookup t k).or (alookup ds k) := by
  induction ds generalizing t with
  | nil => simp [initTab, alookup, Option.or_none]
  | cons p rest ih =>
    obtain ⟨k0, v0⟩ := p
    cases hk0 : alookup t k0 with
    | some w =>
      have step : initTab t ((k0, v0) :: rest) = initTab t rest := by
        simp only [initTab, List.foldl_cons, hk0]
      rw [step, ih]
      by_cases h1 : k0 = k
      · subst h1
        rw [hk0, alookup, if_pos rfl]
        simp only [Option.or_some]
      · rw [alookup, if_neg h1]
    | none =>
      have step : initTab t ((k0, v0) :: rest) = initTab (aset t k0 v0) rest := by
        simp only [initTab, List.foldl_cons, hk0]
      rw [step, ih]
      by_cases h1 : k0 = k
      · subst h1
        rw [hk0, alookup_aset_self, alookup, if_pos rfl, Option.none_or, Option.or_some]
      · rw [alookup_aset_other t k0 k v0 (Ne.symm h1), alookup, if_neg h1]

/-- The cumulative effect of the keyed `copy_from_tab` loop on the
destination tab's dict. -/
def copyKeysTab (sourceState dt : TabState) (ks : List String) : TabState :=
  ks.foldl (fun acc k =>
    match alookup sourceState k with
    | some v => aset acc k v
    | none => acc) dt

theorem alookup_copyKeysTab (sourceState : TabState) (ks : List String)
    (dt : TabState) (k : String) :
    alookup (copyKeysTab sourceState dt ks) k =
      if k ∈ ks ∧ (alookup sourceState k).isSome
      then alookup sourceState k else alookup dt k := by
  induction ks generalizing dt with
  | nil => simp [copyKeysTab]
  | cons k0 rest ih =>
    cases hk0 : alookup sourceState k0 with
    | some v =>
      have step : copyKeysTab sourceState dt (k0 :: rest)
          = copyKeysTab sourceState (aset dt k0 v) rest := by
        simp only [copyKeysTab, List.foldl_cons, hk0]
      rw [step, ih]
      by_cases hmem : k ∈ rest
      · simp only [hmem, List.mem_cons, or_true, true_and]
        by_cases hsome : (alookup sourceState k).isSome = true
        · rw [if_pos hsome, if_pos hsome]
        · have hkk : k ≠ k0 := by
            intro hh
            rw [hh, hk0] at hsome
            exact hsome rfl
          rw [if_neg hsome, if_neg hsome, alookup_aset_other dt k0 k v hkk]
      · by_cases hkk : k = k0
        · subst hkk
          rw [alookup_aset_self]
          simp [hmem, hk0]
        · rw [alookup_aset_other dt k0 k v hkk]
          simp [hmem, hkk]
    | none =>
      have step : copyKeysTab sourceState dt (k0 :: rest)
          = copyKeysTab sourceState dt rest := by
        simp only [copyKeysTab, List.foldl_cons, hk0]
      rw [step, ih]
      by_cases hkk : k = k0
      · subst hkk
        simp [hk0]
      · simp [hkk]

theorem copyFold_none (sourceState : TabState) (dest : String) (ks : List String) :
    ks.foldl (copyStep sourceState dest) none = none := by
  induction ks with
  | nil => rfl
  | cons k0 rest ih =>
    rw [List.foldl_cons]
    cases hk0 : alookup sourceState k0 with
    | some v => rw [copyStep, hk0]; exact ih
    | none => rw [copyStep, hk0]; exact ih

theorem copyFold_eq (sourceState : TabState) (dest : String) (ks : List String) :
    ∀ (s : Store) (dt : TabState), alookup s dest = some dt →
      ks.foldl (copyStep sourceState dest) (some s)
        = some (aset s dest (copyKeysTab sourceState dt ks)) := by
  induction ks with
  | nil =>
    intro s dt hdest
    rw [List.foldl_nil, copyKeysTab, List.foldl_nil, aset_self s dest dt hdest]
  | cons k0 rest ih =>
    intro s dt hdest
    rw [List.foldl_cons]
    cases hk0 : alookup sourceState k0 with
    | some v =>
      have hstep : copyStep sourceState dest (some s) k0
          = some (aset s dest (aset dt k0 v)) := by
        simp only [copyStep, hk0, hdest]
      rw [hstep, ih (aset s dest (aset dt k0 v)) (aset dt k0 v) (alookup_aset_self s dest _),
        aset_aset_self]
      have hck : copyKeysTab sourceState dt (k0 :: rest)
          = copyKeysTab sourceState (aset dt k0 v) rest := by
        simp only [copyKeysTab, List.foldl_cons, hk0]
      rw [hck]
    | none =>
      have hstep : copyStep sourceState dest (some s) k0 = some s := by
        simp only [copyStep, hk0]
      rw [hstep, ih s dt hdest]
      have hck : copyKeysTab sourceState dt (k0 :: rest)
          = copyKeysTab sourceState dt rest := by
        simp only [copyKeysTab, List.foldl_cons, hk0]
      rw [hck]

theorem copyFold_isolation (sourceState : TabState) (dest : String) (ks : List String) :
    ∀ (s s' : Store), ks.foldl (copyStep sourceState dest) (some s) = some s' →
      ∀ M, M ≠ dest → alookup s' M = alookup s M := by
  induction ks with
  | nil =>
    intro s s' h M _
    rw [List.foldl_nil] at h
    injection h with h
    rw [h]
  | cons k0 rest ih =>
    intro s s' h M hM
    rw [List.foldl_cons] at h
    cases hk0 : alookup sourceState k0 with
    | none =>
      rw [copyStep, hk0] at h
      exact ih s s' h M hM
    | some v =>
      simp only [copyStep, hk0] at h
      cases hdest : alookup s dest with
      | none =>
        simp only [hdest] at h
        rw [copyFold_none] at h
        exact absurd h (by simp)
      | some t =>
        simp only [hdest] at h
        have := ih _ _ h M hM
        rw [this, alookup_aset_other s dest M _ hM]

theorem modifyTab_other (s : Store) (tab : String) (f : TabState → TabState)
    (s1 : Store) (h : modifyTab s tab f = some s1)
    (M : String) (hM : M ≠ tab) : alookup s1 M = alookup s M := by
  cases ht : alookup s tab with
  | none =>
    simp only [modifyTab, ht] at h
    exact Option.noConfusion h
  | some t =>
    simp only [modifyTab, ht] at h
    injection h with h
    rw [← h, alookup_aset_other s tab M _ hM]

end StateManager

open StateManager

/-! ## The claims -/

/-- A store whose namespace `"a"` holds a representable entry `"x" ↦ 1` and a
list containing a non-serializable object (which passes the top-level
`isinstance` filter of `save_all`). -/
def C1store : Store :=
  [("a", [("x", Value.int 1), ("y", Value.list [Value.other 0])])]

/-- Claim C1 (counterexample): `SaveAll` then `LoadAll` in a fresh session
does NOT reproduce every representable key-value pair for every session
store.  In `C1store` the pair `"x" ↦ 1` is representable, yet `save_all`
raises `TypeError` (the list `[<object>]` passes the top-level type filter
but `json.dump` fails on its element), so no valid snapshot exists and the
fresh session reads back only the default. -/
theorem C1_roundtrip_counterexample :
    alookup ((alookup C1store "a").getD ([] : TabState)) "x" = some (Value.int 1) ∧
    deepRep (Value.int 1) = true ∧
    save_all C1store = none ∧
    get_from_tab (roundTrip C1store) "a" "x" (Value.str "N/A") = Value.str "N/A" ∧
    Value.str "N/A" ≠ Value.int 1 :=
  ⟨rfl, rfl, rfl, rfl, fun h => Value.noConfusion h⟩

/-- Claim C1 (amended): provided every value kept by the top-level type
filter is serializable all the way down (`dumpOk`), `SaveAll` followed by
`LoadAll` in a fresh session reproduces every previously-set representable
key-value pair exactly, across all namespaces. -/
theorem C1_roundtrip_amended (s : Store) (tab k : String) (t : TabState)
    (v d : Value) (hdump : dumpOk (snapshotData s) = true)
    (ht : alookup s tab = some t) (hk : alookup t k = some v)
    (hv : deepRep v = true) :
    get_from_tab (roundTrip s) tab k d = v := by
  have hsave : save_all s = some (snapshotData s) := by
    simp only [save_all, hdump, if_true]
  rw [roundTrip, hsave, load_all, get_from_tab, alookup_snapshotData, ht]
  have hred : ((some t).map filterTab).getD ([] : TabState) = filterTab t := rfl
  rw [hred, alookup_filterTab t k v hk (deepRep_isSaveType v hv), Option.getD_some]

/-- Witness for C1 (amended) at a concrete fully-representable store. -/
theorem C1_roundtrip_witness :
    get_from_tab (roundTrip [("a", [("x", Value.int 1)])]) "a" "x" (Value.str "d")
      = Value.int 1 :=
  C1_roundtrip_amended [("a", [("x", Value.int 1)])] "a" "x" [("x", Value.int 1)]
    (Value.int 1) (Value.str "d") rfl rfl rfl rfl

/-- Claim C3 (counterexample): `Reset([])` does not remove "exactly the
listed keys": the empty list is falsy in `if keys:`, so the whole namespace
is cleared — the unlisted key `"a"` is removed. -/
theorem C3_reset_counterexample :
    reset [("t", [("a", Value.int 1)])] "t" (some []) = some [("t", [])] ∧
    ¬ ("a" ∈ ([] : List String)) ∧
    alookup ([] : TabState) "a" ≠ alookup [("a", Value.int 1)] "a" :=
  ⟨rfl, List.not_mem_nil "a", fun h => Option.noConfusion h⟩

/-- Claim C3 (amended): for every NON-EMPTY list of keys, `Reset(keys)`
removes exactly the listed keys that are present, silently ignores listed
keys that are absent, and leaves every non-listed entry unchanged; `Reset`
with the list omitted OR with an empty list clears the namespace. -/
theorem C3_reset_amended (s : Store) (tab : String) (dt : TabState)
    (ks : List String) (k : String)
    (hdt : alookup s tab = some dt) (hks : ks ≠ []) :
    (∃ s1, reset s tab (some ks) = some s1 ∧
        ∃ dt1, alookup s1 tab = some dt1 ∧
          alookup dt1 k = if k ∈ ks then none else alookup dt k) ∧
    reset s tab (some []) = some (aset s tab ([] : TabState)) ∧
    reset s tab none = some (aset s tab ([] : TabState)) ∧
    alookup (aset s tab ([] : TabState)) tab = some ([] : TabState) := by
  refine ⟨?_, rfl, rfl, alookup_aset_self s tab ([] : TabState)⟩
  obtain ⟨k0, rest, rfl⟩ : ∃ k0 rest, ks = k0 :: rest := by
    cases ks with
    | nil => exact absurd rfl hks
    | cons k0 rest => exact ⟨k0, rest, rfl⟩
  refine ⟨aset s tab ((k0 :: rest).foldl apop dt), ?_, (k0 :: rest).foldl apop dt,
    alookup_aset_self s tab _, alookup_foldl_apop (k0 :: rest) dt k⟩
  simp only [reset, List.isEmpty_cons, Bool.false_eq_true, if_false, modifyTab, hdt]

/-- Witness for C3 (amended): resetting `["a"]` keeps the unlisted `"b"`. -/
theorem C3_reset_witness :
    (∃ s1, reset [("t", [("a", Value.int 1), ("b", Value.int 2)])] "t" (some ["a"])
        = some s1 ∧
        ∃ dt1, alookup s1 "t" = some dt1 ∧
          alookup dt1 "b" = if "b" ∈ ["a"] then none
            else alookup [("a", Value.int 1), ("b", Value.int 2)] "b") ∧
    reset [("t", [("a", Value.int 1), ("b", Value.int 2)])] "t" (some [])
      = some (aset [("t", [("a", Value.int 1), ("b", Value.int 2)])] "t" ([] : TabState)) ∧
    reset [("t", [("a", Value.int 1), ("b", Value.int 2)])] "t" none
      = some (aset [("t", [("a", Value.int 1), ("b", Value.int 2)])] "t" ([] : TabState)) ∧
    alookup (aset [("t", [("a", Value.int 1), ("b", Value.int 2)])] "t" ([] : TabState)) "t"
      = some ([] : TabState) :=
  C3_reset_amended [("t", [("a", Value.int 1), ("b", Value.int 2)])] "t"
    [("a", Value.int 1), ("b", Value.int 2)] ["a"] "b" rfl
    (fun h => List.noConfusion h)

/-- A store with a container value that passes the top-level `isinstance`
filter of `save_all` but contains a non-serializable object. -/
def C4store : Store :=
  [("a", [("x", Value.int 1), ("y", Value.list [Value.str "ok", Value.other 7])])]

/-- Claim C4 (code bug): `SaveAll` does NOT always succeed.  The value
`[​"ok", <object>]` passes the top-level `isinstance` filter (`isSaveType`),
is not deeply serializable (`deepRep` is false), and `json.dump` raises
`TypeError` (`save_all` returns `none`) instead of silently omitting the
non-representable value as the spec states. -/
theorem C4_save_all_raises :
    isSaveType (Value.list [Value.str "ok", Value.other 7]) = true ∧
    deepRep (Value.list [Value.str "ok", Value.other 7]) = false ∧
    save_all C4store = none :=
  ⟨rfl, rfl, rfl⟩

/-- Claim C5 (counterexample): `CopyFromTab(src, [])` does not copy
"exactly the listed keys" (i.e. nothing): the empty list is falsy in
`if keys:`, so the whole source namespace is copied — the unlisted key
`"x"` appears in the destination. -/
theorem C5_copy_counterexample :
    copy_from_tab [("dst", []), ("src", [("x", Value.int 1)])] "dst" "src" (some [])
      = some [("dst", [("x", Value.int 1)]), ("src", [("x", Value.int 1)])] ∧
    ¬ ("x" ∈ ([] : List String)) ∧
    alookup ([("x", Value.int 1)] : TabState) "x" ≠ alookup ([] : TabState) "x" :=
  ⟨rfl, List.not_mem_nil "x", fun h => Option.noConfusion h⟩

/-- Claim C5 (amended): for every NON-EMPTY key list, `CopyFromTab` copies
into the bound namespace exactly the listed keys present in the source
(skipping absent ones), overwriting on conflict and leaving every other
destination entry unchanged; with the list omitted OR EMPTY it copies the
entire source namespace (destination-only keys preserved); if the source
namespace does not exist it is a no-op. -/
theorem C5_copy_amended (s : Store) (dest src : String) (dt : TabState)
    (ks : List String) (hdest : alookup s dest = some dt) (hks : ks ≠ [])
    (hnd : nodupKeys ((alookup s src).getD ([] : TabState)) = true) :
    (∃ dt1, copy_from_tab s dest src (some ks) = some (aset s dest dt1) ∧
        ∀ k, alookup dt1 k =
          if k ∈ ks ∧ (alookup ((alookup s src).getD ([] : TabState)) k).isSome
          then alookup ((alookup s src).getD ([] : TabState)) k
          else alookup dt k) ∧
    (∀ keys, keys = none ∨ keys = some ([] : List String) →
      ∃ dt1, copy_from_tab s dest src keys = some (aset s dest dt1) ∧
        ∀ k, alookup dt1 k =
          (alookup ((alookup s src).getD ([] : TabState)) k).or (alookup dt k)) ∧
    (∀ src2 keys, alookup s src2 = none → copy_from_tab s dest src2 keys = some s) := by
  refine ⟨?_, ?_, ?_⟩
  · obtain ⟨k0, rest, rfl⟩ : ∃ k0 rest, ks = k0 :: rest := by
      cases ks with
      | nil => exact absurd rfl hks
      | cons k0 rest => exact ⟨k0, rest, rfl⟩
    refine ⟨copyKeysTab ((alookup s src).getD ([] : TabState)) dt (k0 :: rest), ?_, ?_⟩
    · simp only [copy_from_tab, List.isEmpty_cons, Bool.false_eq_true, if_false]
      exact copyFold_eq _ dest (k0 :: rest) s dt hdest
    · intro k
      exact alookup_copyKeysTab _ (k0 :: rest) dt k
  · intro keys hkeys
    refine ⟨aupdate dt ((alookup s src).getD ([] : TabState)), ?_, ?_⟩
    · rcases hkeys with h | h
      · subst h
        simp only [copy_from_tab, hdest]
      · subst h
        simp only [copy_from_tab, List.isEmpty_nil, if_true, hdest]
    · intro k
      exact alookup_aupdate dt _ k hnd
  · intro src2 keys hsrc
    cases keys with
    | none =>
      simp only [copy_from_tab, hsrc, Option.getD_none, hdest]
      rw [show aupdate dt ([] : TabState) = dt from rfl, aset_self s dest dt hdest]
    | some ks' =>
      cases ks' with
      | nil =>
        simp only [copy_from_tab, hsrc, Option.getD_none, List.isEmpty_nil, if_true, hdest]
        rw [show aupdate dt ([] : TabState) = dt from rfl, aset_self s dest dt hdest]
      | cons k0 rest =>
        simp only [copy_from_tab, hsrc, Option.getD_none, List.isEmpty_cons,
          Bool.false_eq_true, if_false]
        have hfold : ∀ (l : List String) (acc : Option Store),
            l.foldl (copyStep ([] : TabState) dest) acc = acc := by
          intro l
          induction l with
          | nil => intro acc; rfl
          | cons a l ih => intro acc; exact ih _
        exact hfold (k0 :: rest) (some s)

/-- Witness for C5 (amended) at a concrete store: keyed copy of `["x", "z"]`
(`"z"` absent from source), full copy, and the missing-source no-op. -/
theorem C5_copy_witness :
    (∃ dt1, copy_from_tab [("d", [("p", Value.int 9)]), ("s", [("x", Value.int 1)])]
          "d" "s" (some ["x", "z"]) = some (aset [("d", [("p", Value.int 9)]),
          ("s", [("x", Value.int 1)])] "d" dt1) ∧
        ∀ k, alookup dt1 k =
          if k ∈ ["x", "z"] ∧ (alookup ((alookup [("d", [("p", Value.int 9)]),
              ("s", [("x", Value.int 1)])] "s").getD ([] : TabState)) k).isSome
          then alookup ((alookup [("d", [("p", Value.int 9)]),
              ("s", [("x", Value.int 1)])] "s").getD ([] : TabState)) k
          else alookup [("p", Value.int 9)] k) ∧
    (∀ keys, keys = none ∨ keys = some ([] : List String) →
      ∃ dt1, copy_from_tab [("d", [("p", Value.int 9)]), ("s", [("x", Value.int 1)])]
          "d" "s" keys = some (aset [("d", [("p", Value.int 9)]),
          ("s", [("x", Value.int 1)])] "d" dt1) ∧
        ∀ k, alookup dt1 k =
          (alookup ((alookup [("d", [("p", Value.int 9)]),
              ("s", [("x", Value.int 1)])] "s").getD ([] : TabState)) k).or
            (alookup [("p", Value.int 9)] k)) ∧
    (∀ src2 keys, alookup [("d", [("p", Value.int 9)]), ("s", [("x", Value.int 1)])] src2
        = none →
      copy_from_tab [("d", [("p", Value.int 9)]), ("s", [("x", Value.int 1)])]
        "d" src2 keys
        = some [("d", [("p", Value.int 9)]), ("s", [("x", Value.int 1)])]) :=
  C5_copy_amended [("d", [("p", Value.int 9)]), ("s", [("x", Value.int 1)])] "d" "s"
    [("p", Value.int 9)] ["x", "z"] rfl (fun h => List.noConfusion h) rfl

/-- Claim C6: `Initialize` sets in the bound namespace only the keys not
already present and never overwrites an existing value (the result of each
lookup is the old binding when present, the first matching default
otherwise); in particular, starting from a namespace without `K`,
`Initialize(\x7bK: V\x7d)` then `Initialize(\x7bK: V2\x7d)` leaves `K ↦ V`. -/
theorem C6_init_defaults (s : Store) (tab : String) (dt : TabState)
    (ds : List (String × Value)) (K : String) (V V2 : Value)
    (hdt : alookup s tab = some dt) :
    (∃ dt1, StateManager.init s tab ds = some (aset s tab dt1) ∧
        ∀ k, alookup dt1 k = (alookup dt k).or (alookup ds k)) ∧
    (alookup dt K = none →
      ∃ s1 s2 dt2, StateManager.init s tab [(K, V)] = some s1 ∧
        StateManager.init s1 tab [(K, V2)] = some s2 ∧
        alookup s2 tab = some dt2 ∧ alookup dt2 K = some V) := by
  constructor
  · refine ⟨initTab dt ds, ?_, fun k => alookup_initTab dt ds k⟩
    simp only [StateManager.init, modifyTab, hdt]
  · intro hK
    have h1 : StateManager.init s tab [(K, V)]
        = some (aset s tab (initTab dt [(K, V)])) := by
      simp only [StateManager.init, modifyTab, hdt]
    have h2 : StateManager.init (aset s tab (initTab dt [(K, V)])) tab [(K, V2)]
        = some (aset (aset s tab (initTab dt [(K, V)])) tab
            (initTab (initTab dt [(K, V)]) [(K, V2)])) := by
      simp only [StateManager.init, modifyTab, alookup_aset_self s tab _]
    refine ⟨_, _, initTab (initTab dt [(K, V)]) [(K, V2)], h1, h2,
      alookup_aset_self _ tab _, ?_⟩
    rw [alookup_initTab, alookup_initTab, hK, Option.none_or]
    rw [show alookup [(K, V)] K = some V from by rw [alookup, if_pos rfl]]
    rw [Option.or_some]

/-- Witness for C6 at a concrete namespace without the key `"m"`. -/
theorem C6_init_witness :
    (∃ dt1, StateManager.init [("t", [("a", Value.int 1)])] "t" [("a", Value.int 5)]
        = some (aset [("t", [("a", Value.int 1)])] "t" dt1) ∧
        ∀ k, alookup dt1 k = (alookup [("a", Value.int 1)] k).or
          (alookup [("a", Value.int 5)] k)) ∧
    (alookup [("a", Value.int 1)] "m" = none →
      ∃ s1 s2 dt2, StateManager.init [("t", [("a", Value.int 1)])] "t"
          [("m", Value.str "v1")] = some s1 ∧
        StateManager.init s1 "t" [("m", Value.str "v2")] = some s2 ∧
        alookup s2 "t" = some dt2 ∧ alookup dt2 "m" = some (Value.str "v1")) :=
  C6_init_defaults [("t", [("a", Value.int 1)])] "t" [("a", Value.int 1)]
    [("a", Value.int 5)] "m" (Value.str "v1") (Value.str "v2") rfl

/-- Claim C7: `LoadAll` with a missing snapshot file is a no-op leaving the
current session store unchanged; with an existing file it replaces the whole
namespace mapping with the deserialized content. -/
theorem C7_load_all (file : Option Store) (cur : Store) :
    (file = none → load_all file cur = cur) ∧
    (∀ d, file = some d → load_all file cur = d) := by
  constructor
  · intro h
    rw [h, load_all]
  · intro d h
    rw [h, load_all]

/-- Witness for C7: the missing-file no-op and the replacing load. -/
theorem C7_load_all_witness :
    load_all none [("a", [("x", Value.int 1)])] = [("a", [("x", Value.int 1)])] ∧
    load_all (some [("b", [])]) [("a", [("x", Value.int 1)])] = [("b", [])] :=
  ⟨(C7_load_all none [("a", [("x", Value.int 1)])]).1 rfl,
   (C7_load_all (some [("b", [])]) [("a", [("x", Value.int 1)])]).2 [("b", [])] rfl⟩

/-- Claim C8: `GetFromTab` returns the stored value when both the namespace
and the key exist and the caller-supplied default otherwise, and it never
mutates the session store (in particular it never creates the queried
namespace: the store component of the state-passing form is unchanged). -/
theorem C8_get_from_tab (s : Store) (tab k : String) (d : Value) :
    (∀ t v, alookup s tab = some t → alookup t k = some v →
      get_from_tab s tab k d = v) ∧
    (alookup s tab = none → get_from_tab s tab k d = d) ∧
    (∀ t, alookup s tab = some t → alookup t k = none →
      get_from_tab s tab k d = d) ∧
    (get_from_tabS s tab k d).2 = s := by
  refine ⟨?_, ?_, ?_, rfl⟩
  · intro t v ht hk
    rw [get_from_tab, ht, Option.getD_some, hk, Option.getD_some]
  · intro ht
    rw [get_from_tab, ht]
    rfl
  · intro t ht hk
    rw [get_from_tab, ht, Option.getD_some, hk, Option.getD_none]

/-- Witness for C8: the spec's cross-tab scenario, plus a missing namespace
falling back to the default. -/
theorem C8_get_from_tab_witness :
    get_from_tab [("data_explorer", [("selected_city", Value.str "Barcelona")])]
      "data_explorer" "selected_city" (Value.str "N/A") = Value.str "Barcelona" ∧
    get_from_tab [("data_explorer", [("selected_city", Value.str "Barcelona")])]
      "visual_plots" "selected_city" (Value.str "N/A") = Value.str "N/A" :=
  ⟨(C8_get_from_tab _ "data_explorer" "selected_city" (Value.str "N/A")).1
      [("selected_city", Value.str "Barcelona")] (Value.str "Barcelona") rfl rfl,
   (C8_get_from_tab _ "visual_plots" "selected_city" (Value.str "N/A")).2.1 rfl⟩

/-- Claim C9: every mutating operation through a handle bound to namespace
`N` (`Initialize`, `Set`, `Reset`, `CopyFromTab` into `N`) leaves the entry
mapping of every other namespace `M ≠ N` unchanged. -/
theorem C9_cross_namespace_isolation (s : Store) (N M : String) (hMN : M ≠ N) :
    (∀ ds s1, StateManager.init s N ds = some s1 → alookup s1 M = alookup s M) ∧
    (∀ k v s1, StateManager.set s N k v = some s1 → alookup s1 M = alookup s M) ∧
    (∀ keys s1, reset s N keys = some s1 → alookup s1 M = alookup s M) ∧
    (∀ src keys s1, copy_from_tab s N src keys = some s1 →
      alookup s1 M = alookup s M) := by
  refine ⟨?_, ?_, ?_, ?_⟩
  · intro ds s1 h
    exact modifyTab_other s N _ s1 h M hMN
  · intro k v s1 h
    exact modifyTab_other s N _ s1 h M hMN
  · intro keys s1 h
    cases keys with
    | none =>
      rw [reset] at h
      injection h with h
      rw [← h, alookup_aset_other s N M _ hMN]
    | some ks =>
      cases ks with
      | nil =>
        simp only [reset, List.isEmpty_nil, if_true] at h
        injection h with h
        rw [← h, alookup_aset_other s N M _ hMN]
      | cons k0 rest =>
        simp only [reset, List.isEmpty_cons, Bool.false_eq_true, if_false] at h
        exact modifyTab_other s N _ s1 h M hMN
  · intro src keys s1 h
    cases keys with
    | none =>
      simp only [copy_from_tab] at h
      cases hdest : alookup s N with
      | none => rw [hdest] at h; exact Option.noConfusion h
      | some t =>
        rw [hdest] at h
        injection h with h
        rw [← h, alookup_aset_other s N M _ hMN]
    | some ks =>
      cases ks with
      | nil =>
        simp only [copy_from_tab, List.isEmpty_nil, if_true] at h
        cases hdest : alookup s N with
        | none => rw [hdest] at h; exact Option.noConfusion h
        | some t =>
          rw [hdest] at h
          injection h with h
          rw [← h, alookup_aset_other s N M _ hMN]
      | cons k0 rest =>
        simp only [copy_from_tab, List.isEmpty_cons, Bool.false_eq_true, if_false] at h
        exact copyFold_isolation _ N (k0 :: rest) s s1 h M hMN

/-- Witness for C9 at a concrete two-namespace store. -/
theorem C9_isolation_witness :
    (∀ ds s1, StateManager.init [("n", []), ("m", [("q", Value.int 3)])] "n" ds = some s1 →
      alookup s1 "m" = alookup [("n", []), ("m", [("q", Value.int 3)])] "m") ∧
    (∀ k v s1, StateManager.set [("n", []), ("m", [("q", Value.int 3)])] "n" k v = some s1 →
      alookup s1 "m" = alookup [("n", []), ("m", [("q", Value.int 3)])] "m") ∧
    (∀ keys s1, reset [("n", []), ("m", [("q", Value.int 3)])] "n" keys = some s1 →
      alookup s1 "m" = alookup [("n", []), ("m", [("q", Value.int 3)])] "m") ∧
    (∀ src keys s1, copy_from_tab [("n", []), ("m", [("q", Value.int 3)])] "n" src keys
        = some s1 →
      alookup s1 "m" = alookup [("n", []), ("m", [("q", Value.int 3)])] "m") :=
  C9_cross_namespace_isolation [("n", []), ("m", [("q", Value.int 3)])] "n" "m"
    (fun h => by exact absurd h (by simp))

/-- Claim C10 (counterexample): after `load_all` replaces the store with a
snapshot lacking the bound namespace, `Get` raises `KeyError` (modelled as
`none`) while `GetFromTab` on the same namespace returns the default, so the
two reads do not agree for every reachable state of a bound handle. -/
theorem C10_get_counterexample :
    construct [] "visual_plots" = [("visual_plots", [])] ∧
    load_all (some []) [("visual_plots", [])] = [] ∧
    StateManager.get ([] : Store) "visual_plots" "selected_city" (Value.str "N/A") = none ∧
    get_from_tab ([] : Store) "visual_plots" "selected_city" (Value.str "N/A")
      = Value.str "N/A" ∧
    (none : Option Value) ≠ some (Value.str "N/A") :=
  ⟨rfl, rfl, rfl, rfl, fun h => Option.noConfusion h⟩

/-- Claim C10 (amended): whenever the bound namespace `N` is present in the
session store — as `Construct` guarantees at binding time — `GetFromTab(N, K, D)`
returns exactly the value of `Get(K, D)` on the same handle. -/
theorem C10_get_agree (s : Store) (N k : String) (d : Value) (t : TabState)
    (h : alookup s N = some t) :
    StateManager.get s N k d = some (get_from_tab s N k d) := by
  rw [StateManager.get, get_from_tab, h]
  rfl

/-! ## Reference-level (heap) model for `get_all` (claim C2)

`dict(state)` in `get_all` is a *shallow* copy: the new dict holds the same
key-to-object bindings, so the copy and the store share the nested value
objects.  To express this the heap model makes references explicit. -/

/-- A Python object on the heap: scalars are immutable; `list` and `dict`
hold references (addresses) to their element / value objects. -/
inductive HVal where
  | str : String → HVal
  | int : Int → HVal
  | bool : Bool → HVal
  | list : List Nat → HVal
  | dict : List (String × Nat) → HVal
  | other : HVal

/-- The session's object graph plus `tabs_state`: each tab name maps to the
address of its namespace dict object. -/
structure PyState where
  heap : List (Nat × HVal)
  tabs : List (String × Nat)

/-- An upper bound on the addresses allocated in the heap. -/
def maxAddr : List (Nat × HVal) → Nat
  | [] => 0
  | (a, _) :: rest => max a (maxAddr rest)

/-- Read the object graph at address `a` into a `Value`, following at most
`fuel` levels of references. -/
def deref (h : List (Nat × HVal)) : Nat → Nat → Option Value
  | 0, _ => none
  | fuel + 1, a =>
    match alookup h a with
    | some (HVal.str s) => some (Value.str s)
    | some (HVal.int n) => some (Value.int n)
    | some (HVal.bool b) => some (Value.bool b)
    | some (HVal.list as) => (as.mapM (deref h fuel)).map Value.list
    | some (HVal.dict es) =>
      (es.mapM (fun e => (deref h fuel e.2).map (fun v => (e.1, v)))).map Value.dict
    | some HVal.other => some (Value.other 0)
    | none => none

/-- The address of the object bound to key `k` in namespace `tab`. -/
def getAddr (st : PyState) (tab k : String) : Option Nat :=
  match alookup st.tabs tab with
  | some a =>
    match alookup st.heap a with
    | some (HVal.dict es) => alookup es k
    | _ => none
  | none => none

/-- `StateManager.get(key)` in the heap model: the value object currently
referenced by the bound namespace's entry `k`, read to depth `fuel`. -/
def getH (st : PyState) (fuel : Nat) (tab k : String) : Option Value :=
  (getAddr st tab k).bind (deref st.heap fuel)

/-- `StateManager.get_all()` in the heap model: `dict(tabs_state[tab])`
allocates a NEW dict object at a fresh address carrying the same
key-to-address bindings — a shallow copy sharing all value objects. -/
def get_allH (st : PyState) (tab : String) : Option (Nat × PyState) :=
  match alookup st.tabs tab with
  | some a =>
    match alookup st.heap a with
    | some (HVal.dict es) =>
      some (maxAddr st.heap + 1,
        ⟨(maxAddr st.heap + 1, HVal.dict es) :: st.heap, st.tabs⟩)
    | _ => none
  | none => none

/-- In-place mutation of the object at address `a` (list append / clear,
dict item assignment, …): its heap cell is replaced. -/
def setHeap (st : PyState) (a : Nat) (v : HVal) : PyState :=
  ⟨aset st.heap a v, st.tabs⟩

/-- All references inside one heap object are bounded by `n`. -/
def refsLE : HVal → Nat → Bool
  | HVal.list as, n => as.all (fun a => decide (a ≤ n))
  | HVal.dict es, n => es.all (fun e => decide (e.2 ≤ n))
  | _, _ => true

/-- Well-formed state: every address mentioned in `tabs` or inside a heap
object is at most `maxAddr` (no reference to an unallocated address). -/
def wfState (st : PyState) : Bool :=
  st.tabs.all (fun p => decide (p.2 ≤ maxAddr st.heap)) &&
  st.heap.all (fun p => refsLE p.2 (maxAddr st.heap))

theorem mapM_congr_option {α β : Type} (f g : α → Option β) :
    ∀ l : List α, (∀ a, a ∈ l → f a = g a) → l.mapM f = l.mapM g := by
  intro l
  induction l with
  | nil => intro _; rfl
  | cons a l ih =>
    intro hfa
    rw [List.mapM_cons, List.mapM_cons, hfa a (List.mem_cons_self a l),
      ih (fun b hb => hfa b (List.mem_cons_of_mem a hb))]

theorem alookup_cons_fresh {α : Type} (h : List (Nat × α)) (f a : Nat) (d : α)
    (hne : a ≠ f) : alookup ((f, d) :: h) a = alookup h a := by
  rw [alookup, if_neg (Ne.symm hne)]

/-- Framing: adding a cell at an address nobody reachable refers to does not
change any dereference bounded by `maxAddr`. -/
theorem deref_cons_fresh (h : List (Nat × HVal)) (f : Nat) (d : HVal)
    (hf : maxAddr h < f)
    (hwf : h.all (fun p => refsLE p.2 (maxAddr h)) = true) :
    ∀ (fuel a : Nat), a ≤ maxAddr h →
      deref ((f, d) :: h) fuel a = deref h fuel a := by
  intro fuel
  induction fuel with
  | zero => intro a _; rfl
  | succ fuel ih =>
    intro a ha
    have hne : a ≠ f := by omega
    simp only [deref, alookup_cons_fresh h f a d hne]
    cases hv : alookup h a with
    | none => rfl
    | some v =>
      cases v with
      | str s => rfl
      | int n => rfl
      | bool b => rfl
      | other => rfl
      | list as =>
        have hrefs : refsLE (HVal.list as) (maxAddr h) = true :=
          List.all_eq_true.mp hwf _ (alookup_mem h a (HVal.list as) hv)
        have hcong : as.mapM (deref ((f, d) :: h) fuel) = as.mapM (deref h fuel) := by
          refine mapM_congr_option _ _ as (fun a2 ha2 => ih a2 ?_)
          have := List.all_eq_true.mp hrefs a2 ha2
          exact of_decide_eq_true this
        simp only [hcong]
      | dict es =>
        have hrefs : refsLE (HVal.dict es) (maxAddr h) = true :=
          List.all_eq_true.mp hwf _ (alookup_mem h a (HVal.dict es) hv)
        have hcong :
            es.mapM (fun e => (deref ((f, d) :: h) fuel e.2).map (fun v => (e.1, v)))
              = es.mapM (fun e => (deref h fuel e.2).map (fun v => (e.1, v))) := by
          refine mapM_congr_option _ _ es (fun e he => ?_)
          have hb := List.all_eq_true.mp hrefs e he
          rw [ih e.2 (of_decide_eq_true hb)]
        simp only [hcong]

/-- A heap where namespace `"t"` binds `"k"` to a list object `[5]`. -/
def C2heap : List (Nat × HVal) :=
  [(0, HVal.dict [("k", 1)]), (1, HVal.list [2]), (2, HVal.int 5)]

/-- The session state over `C2heap`. -/
def C2st : PyState := ⟨C2heap, [("t", 0)]⟩

/-- Claim C2 (counterexample): the copy returned by `get_all` is SHALLOW.
The new dict (fresh address 3) carries the same binding `"k" ↦ address 1`,
so mutating the nested list through the copy (`copy["k"].clear()`, modelled
as overwriting the cell at address 1) changes the subsequent `Get` result
from `[5]` to `[]`. -/
theorem C2_get_all_counterexample :
    get_allH C2st "t"
      = some (3, ⟨(3, HVal.dict [("k", 1)]) :: C2heap, [("t", 0)]⟩) ∧
    getH C2st 4 "t" "k" = some (Value.list [Value.int 5]) ∧
    getH (setHeap ⟨(3, HVal.dict [("k", 1)]) :: C2heap, [("t", 0)]⟩ 1 (HVal.list []))
      4 "t" "k" = some (Value.list []) ∧
    Value.list [Value.int 5] ≠ Value.list [] :=
  ⟨rfl, rfl, rfl, fun h => List.noConfusion (Value.list.inj h)⟩

/-- Claim C2 (amended): the copy is independent at the top level — mutating
the returned dict object itself (adding, removing or reassigning its
entries: any overwrite of the fresh cell) leaves every subsequent `Get`
result on every namespace unchanged; only in-place mutation of the shared
nested value objects can leak (see the counterexample). -/
theorem C2_get_all_amended (st : PyState) (tab : String) (f : Nat) (st2 : PyState)
    (hwf : wfState st = true) (hga : get_allH st tab = some (f, st2)) (d : HVal) :
    ∀ (fuel : Nat) (tab2 k : String),
      getH (setHeap st2 f d) fuel tab2 k = getH st fuel tab2 k := by
  intro fuel tab2 k
  obtain ⟨hwft, hwfh⟩ := Bool.and_eq_true_iff.mp hwf
  cases hta : alookup st.tabs tab with
  | none =>
    simp only [get_allH, hta] at hga
    exact Option.noConfusion hga
  | some a =>
    cases hha : alookup st.heap a with
    | none =>
      simp only [get_allH, hta, hha] at hga
      exact Option.noConfusion hga
    | some hv =>
      cases hv with
      | str s =>
        simp only [get_allH, hta, hha] at hga
        exact Option.noConfusion hga
      | int n =>
        simp only [get_allH, hta, hha] at hga
        exact Option.noConfusion hga
      | bool b =>
        simp only [get_allH, hta, hha] at hga
        exact Option.noConfusion hga
      | other =>
        simp only [get_allH, hta, hha] at hga
        exact Option.noConfusion hga
      | list as =>
        simp only [get_allH, hta, hha] at hga
        exact Option.noConfusion hga
      | dict es =>
        simp only [get_allH, hta, hha] at hga
        injection hga with hga
        injection hga with hf hst2
        subst hf
        subst hst2
        have hmut : setHeap ⟨(maxAddr st.heap + 1, HVal.dict es) :: st.heap, st.tabs⟩
            (maxAddr st.heap + 1) d = ⟨(maxAddr st.heap + 1, d) :: st.heap, st.tabs⟩ := by
          rw [setHeap, aset, if_pos rfl]
        rw [hmut]
        cases hta2 : alookup st.tabs tab2 with
        | none =>
          simp only [getH, getAddr, hta2]
          rfl
        | some a0 =>
          have ha0 : a0 ≤ maxAddr st.heap :=
            of_decide_eq_true (List.all_eq_true.mp hwft _ (alookup_mem _ tab2 a0 hta2))
          have hne0 : a0 ≠ maxAddr st.heap + 1 := by omega
          simp only [getH, getAddr, hta2,
            alookup_cons_fresh st.heap (maxAddr st.heap + 1) a0 d hne0]
          cases hv0 : alookup st.heap a0 with
          | none => rfl
          | some hv0v =>
            cases hv0v with
            | str s => rfl
            | int n => rfl
            | bool b => rfl
            | other => rfl
            | list as0 => rfl
            | dict es0 =>
              simp only [hv0]
              cases he : alookup es0 k with
              | none => rfl
              | some a1 =>
                have hrefs : refsLE (HVal.dict es0) (maxAddr st.heap) = true :=
                  List.all_eq_true.mp hwfh _ (alookup_mem st.heap a0 _ hv0)
                have ha1 : a1 ≤ maxAddr st.heap :=
                  of_decide_eq_true
                    (List.all_eq_true.mp hrefs _ (alookup_mem es0 k a1 he))
                show deref ((maxAddr st.heap + 1, d) :: st.heap) fuel a1
                  = deref st.heap fuel a1
                exact deref_cons_fresh st.heap (maxAddr st.heap + 1) d
                  (by omega) hwfh fuel a1 ha1

/-- Witness for C2 (amended): overwriting the fresh copy cell leaves `Get`
unchanged on a concrete well-formed state. -/
theorem C2_get_all_witness :
    getH (setHeap ⟨(2, HVal.dict [("k", 1)]) ::
        [(0, HVal.dict [("k", 1)]), (1, HVal.int 5)], [("t", 0)]⟩ 2 (HVal.dict []))
      3 "t" "k"
      = getH ⟨[(0, HVal.dict [("k", 1)]), (1, HVal.int 5)], [("t", 0)]⟩ 3 "t" "k" :=
  C2_get_all_amended ⟨[(0, HVal.dict [("k", 1)]), (1, HVal.int 5)], [("t", 0)]⟩ "t" 2
    ⟨(2, HVal.dict [("k", 1)]) :: [(0, HVal.dict [("k", 1)]), (1, HVal.int 5)], [("t", 0)]⟩
    rfl rfl (HVal.dict []) 3 "t" "k"

/-- Witness for C10 (amended): the two reads agree on a present namespace. -/
theorem C10_get_agree_witness :
    StateManager.get [("data_explorer", [("selected_city", Value.str "Barcelona")])]
        "data_explorer" "selected_city" (Value.str "N/A")
      = some (get_from_tab [("data_explorer", [("selected_city", Value.str "Barcelona")])]
        "data_explorer" "selected_city" (Value.str "N/A")) :=
  C10_get_agree [("data_explorer", [("selected_city", Value.str "Barcelona")])]
    "data_explorer" "selected_city" (Value.str "N/A")
    [("selected_city", Value.str "Barcelona")] rfl

end OptimetBCN
